import Mathlib

/-!
Verification development for the multibot arbitrage engine.

Shallow embedding of the TypeScript source under src/. JavaScript bigint
values are modelled as Nat (all embedded quantities are unsigned token
amounts) or Int where a subtraction may go negative; bigint division
truncates, which on nonnegative operands coincides with Nat division.
Map objects are modelled as functions into Option, JS arrays as List.
-/

namespace Multibot

/-- From src/engine/evaluators/opportunityFinder.ts, computeAmountOut.
The source divides the fee product by 10000 before the second
multiplication: amountInWithFee = amountIn * 9975n / 10000n. -/
def computeAmountOut (amountIn reserveIn reserveOut : Nat) : Nat :=
  if amountIn = 0 ∨ reserveIn = 0 ∨ reserveOut = 0 then 0
  else
    let amountInWithFee := amountIn * 9975 / 10000
    let numerator := amountInWithFee * reserveOut
    let denominator := reserveIn + amountInWithFee
    numerator / denominator

/-- From src/engine/evaluators/pathOptimizer.ts, simulateSwap.
Uses a 0.3 percent fee (997/1000) and the untruncated product form. -/
def simulateSwap (amountIn reserveIn reserveOut : Nat) : Nat :=
  if amountIn = 0 ∨ reserveIn = 0 ∨ reserveOut = 0 then 0
  else
    let amountInWithFee := amountIn * 997
    let numerator := amountInWithFee * reserveOut
    let denominator := reserveIn * 1000 + amountInWithFee
    numerator / denominator

/-- The swap formula exactly as the specification states it for C1:
fee numerator 9975, denominator reserve_in * 10000 + amount_in * 9975,
no truncated intermediate. -/
def specAmountOut (amountIn reserveIn reserveOut : Nat) : Nat :=
  if amountIn = 0 ∨ reserveIn = 0 ∨ reserveOut = 0 then 0
  else amountIn * 9975 * reserveOut / (reserveIn * 10000 + amountIn * 9975)

/-- The amended description of computeAmountOut: the fee factor is applied
with truncating integer division first, and the denominator adds the raw
reserve to that truncated value. -/
def amendedAmountOut (amountIn reserveIn reserveOut : Nat) : Nat :=
  if amountIn = 0 ∨ reserveIn = 0 ∨ reserveOut = 0 then 0
  else
    let fee := amountIn * 9975 / 10000
    fee * reserveOut / (reserveIn + fee)

/-- C1 counterexample: at amount_in = 1, reserve_in = 1,
reserve_out = 1000000, the code returns 0 while the formula claimed by the
spec returns 499374; simulateSwap (fee 997) returns 499248, also different
from the claimed FEE_NUM = 9975 formula. -/
theorem computeAmountOut_deviates_from_spec_formula :
    computeAmountOut 1 1 1000000 = 0 ∧
    specAmountOut 1 1 1000000 = 499374 ∧
    simulateSwap 1 1 1000000 = 499248 ∧
    computeAmountOut 1 1 1000000 ≠ specAmountOut 1 1 1000000 := by
  refine ⟨by decide, by decide, by decide, by decide⟩

/-- C1 amended: computeAmountOut returns 0 when any input is zero, and
otherwise floor(fee * reserve_out / (reserve_in + fee)) where
fee = floor(amount_in * 9975 / 10000): the fee product is truncated before
use and the denominator does not scale reserve_in by 10000. -/
theorem computeAmountOut_truncating_characterization (a i o : Nat) :
    computeAmountOut a i o = amendedAmountOut a i o ∧
    computeAmountOut 0 i o = 0 ∧
    computeAmountOut a 0 o = 0 ∧
    computeAmountOut a i 0 = 0 := by
  refine ⟨rfl, ?_, ?_, ?_⟩ <;> simp [computeAmountOut]

/-- C10: with positive reserves the swap output is strictly below the
output reserve, for every input amount. -/
theorem computeAmountOut_lt_reserveOut (a i o : Nat)
    (hi : 0 < i) (ho : 0 < o) :
    computeAmountOut a i o < o := by
  unfold computeAmountOut
  rcases Nat.eq_zero_or_pos a with ha | ha
  · simp [ha, ho]
  · have hi' : i ≠ 0 := Nat.pos_iff_ne_zero.mp hi
    have ho' : o ≠ 0 := Nat.pos_iff_ne_zero.mp ho
    have ha' : a ≠ 0 := Nat.pos_iff_ne_zero.mp ha
    simp only [ha', hi', ho', or_self, if_false]
    set fee := a * 9975 / 10000 with hfee
    have hden : 0 < i + fee := Nat.lt_of_lt_of_le hi (Nat.le_add_right i fee)
    apply Nat.div_lt_of_lt_mul
    exact mul_lt_mul_of_pos_right (by omega : fee < i + fee) ho

/-- C10 witness: concrete instance of the bound. -/
theorem computeAmountOut_lt_reserveOut_witness :
    0 < 1 ∧ 0 < 7 ∧ computeAmountOut 5 1 7 < 7 :=
  ⟨by decide, by decide, computeAmountOut_lt_reserveOut 5 1 7 (by decide) (by decide)⟩

/-! ## Execution guard (src/engine/executors/executionGuard.ts) -/

/-- JS String.prototype.toLowerCase restricted to the ASCII range, which
covers router address strings (hex literals). -/
def toLowerAscii (s : String) : String :=
  ⟨s.data.map Char.toLower⟩

/-- Per-router failure record, executionGuard.ts. -/
structure GuardRecord where
  failures : Nat
  lastFailure : Nat
  deriving DecidableEq, Repr

/-- The routerBlacklist Map, modelled as a partial function from keys. -/
def GuardState : Type := String → Option GuardRecord

def FAILURE_LIMIT : Nat := 3

def BLACKLIST_WINDOW_MS : Nat := 5 * 60 * 1000

/-- Map.delete on the modelled state. -/
def guardDelete (key : String) (st : GuardState) : GuardState :=
  fun k => if k = key then none else st k

/-- Map.set on the modelled state. -/
def guardSet (key : String) (r : GuardRecord) (st : GuardState) : GuardState :=
  fun k => if k = key then some r else st k

/-- From executionGuard.ts, shouldBlockRouter. Date.now() is passed in as
now; the elapsed time is computed in Int as in JS number arithmetic. The
function both returns the verdict and (possibly) mutates the map, so the
model returns the pair. -/
def shouldBlockRouter (router : String) (now : Nat) (st : GuardState) :
    Bool × GuardState :=
  match st (toLowerAscii router) with
  | none => (false, st)
  | some r =>
    let elapsed : Int := (now : Int) - (r.lastFailure : Int)
    if (BLACKLIST_WINDOW_MS : Int) < elapsed then
      (false, guardDelete (toLowerAscii router) st)
    else
      (decide (FAILURE_LIMIT ≤ r.failures), st)

/-- From executionGuard.ts, recordRouterFailure. -/
def recordRouterFailure (router : String) (now : Nat) (st : GuardState) :
    GuardState :=
  match st (toLowerAscii router) with
  | none => guardSet (toLowerAscii router) ⟨1, now⟩ st
  | some r => guardSet (toLowerAscii router) ⟨r.failures + 1, now⟩ st

/-- A concrete guard state with one sub-limit record. -/
def guardStateCex : GuardState :=
  fun k => if k = "r" then some ⟨1, 1000⟩ else none

/-- C4 counterexample: with a record of 1 failure and zero elapsed time,
shouldBlockRouter returns false, yet the record is NOT cleared by the
lookup (the claim says every non-blocking lookup clears it). -/
theorem shouldBlockRouter_keeps_subLimit_record :
    (shouldBlockRouter "r" 1000 guardStateCex).1 = false ∧
    (shouldBlockRouter "r" 1000 guardStateCex).2 "r" = some ⟨1, 1000⟩ := by
  exact ⟨by decide, by decide⟩

/-- C4 amended: shouldBlockRouter returns true iff the record stored under
the lowercased router has failures at least FAILURE_LIMIT = 3 and
now - last_failure_ms is at most BLACKLIST_WINDOW_MS = 300000; the record
is cleared only when now - last_failure_ms strictly exceeds the window
(sub-limit records inside the window are retained). -/
theorem shouldBlockRouter_characterization (router : String) (now : Nat)
    (st : GuardState) :
    ((shouldBlockRouter router now st).1 = true ↔
      ∃ r, st (toLowerAscii router) = some r ∧ FAILURE_LIMIT ≤ r.failures ∧
        (now : Int) - (r.lastFailure : Int) ≤ (BLACKLIST_WINDOW_MS : Int)) ∧
    ((shouldBlockRouter router now st).2 =
      match st (toLowerAscii router) with
      | none => st
      | some r =>
        if (BLACKLIST_WINDOW_MS : Int) < (now : Int) - (r.lastFailure : Int)
        then guardDelete (toLowerAscii router) st
        else st) := by
  unfold shouldBlockRouter
  cases h : st (toLowerAscii router) with
  | none => exact ⟨by simp, rfl⟩
  | some r =>
    by_cases hwin :
        (BLACKLIST_WINDOW_MS : Int) < (now : Int) - (r.lastFailure : Int)
    · refine ⟨?_, by simp [hwin]⟩
      simp only [hwin, if_true]
      simp only [Option.some.injEq, Bool.false_eq_true, false_iff, not_exists]
      intro r2
      rintro ⟨hr2, hf, hle⟩
      subst hr2
      omega
    · refine ⟨?_, by simp [hwin]⟩
      simp only [hwin, if_false, decide_eq_true_eq]
      constructor
      · intro hf
        exact ⟨r, rfl, hf, by omega⟩
      · rintro ⟨r2, hr2, hf, hle⟩
        cases hr2
        exact hf

/-! ## Nonce manager (src/engine/executors/nonceManager.ts) -/

/-- From nonceManager.ts, getNextNonce. State is lastKnownNonce (null
modelled as none); the network pending transaction count observed by this
call is an input. Returns the nonce handed out and the new state. -/
def getNextNonce (lastKnownNonce : Option Nat) (networkNonce : Nat) :
    Nat × Option Nat :=
  let cached :=
    match lastKnownNonce with
    | none => networkNonce
    | some c => if c < networkNonce then networkNonce else c
  (cached, some (cached + 1))

/-- Serialized sequence of getNextNonce calls against a sequence of
network responses, collecting the returned nonces. -/
def runNonces (st : Option Nat) : List Nat → List Nat
  | [] => []
  | n :: rest =>
    let r := getNextNonce st n
    r.1 :: runNonces r.2 rest

/-- Every nonce produced from state some c is at least c. -/
theorem runNonces_lower_bound (responses : List Nat) :
    ∀ c x, x ∈ runNonces (some c) responses → c ≤ x := by
  induction responses with
  | nil => intro c x hx; simp [runNonces] at hx
  | cons n rest ih =>
    intro c x hx
    simp only [runNonces, getNextNonce, List.mem_cons] at hx
    rcases hx with hx | hx
    · subst hx; split <;> omega
    · split at hx
      · rename_i hc
        have := ih _ _ hx
        omega
      · have := ih _ _ hx
        omega

/-- C5: serialized calls to getNextNonce return strictly increasing
values, for every initial state and every sequence of network
pending-nonce responses; in particular no value is ever returned twice. -/
theorem getNextNonce_strictly_increasing (st : Option Nat)
    (responses : List Nat) :
    (runNonces st responses).Pairwise (· < ·) := by
  induction responses generalizing st with
  | nil => simp [runNonces]
  | cons n rest ih =>
    simp only [runNonces]
    refine List.pairwise_cons.mpr ⟨?_, ih _⟩
    intro x hx
    have hlb := runNonces_lower_bound rest ((getNextNonce st n).1 + 1) x
    simp only [getNextNonce] at hx hlb ⊢
    have := hlb hx
    omega

/-! ## Gas price selection (src/engine/executors/txExecutor.ts variants) -/

/-- From part txExecutor.ts (executeArbPlanTx): the submitted gas price is
feeData.gasPrice when present, else the literal 3000000000 wei fallback.
No cap is applied. -/
def txExecGasPrice (feeDataGasPrice : Option Nat) : Nat :=
  match feeDataGasPrice with
  | none => 3000000000
  | some g => g

/-- From the other txExecutor.ts variant (executeBestOpportunity): the gas
price is provider.getGasPrice() capped at MAX_GAS_PRICE_GWEI (settings do
not define it, so the DEFAULT_MAX_GAS_GWEI = 8 fallback applies),
converted to wei by parseUnits. There is no 3 gwei fallback here. -/
def bestOppGasPrice (networkGasPrice : Nat) : Nat :=
  min networkGasPrice (8 * 1000000000)

/-- C3 counterexample: when feeData reports 20 gwei, executeArbPlanTx
submits with 20 gwei, exceeding MAX_GAS_PRICE_GWEI = 8 gwei: the claimed
cap does not exist on this path. -/
theorem txExecGasPrice_exceeds_cap :
    txExecGasPrice (some 20000000000) = 20000000000 ∧
    8 * 1000000000 < 20000000000 := by
  exact ⟨rfl, by decide⟩

/-- C3 amended: executeArbPlanTx uses feeData.gas_price with a 3 gwei
fallback and no cap, while executeBestOpportunity caps the network gas
price at 8 gwei (and only that path never exceeds the cap). -/
theorem gasPrice_characterization (fd : Option Nat) (g : Nat) :
    txExecGasPrice fd = fd.getD 3000000000 ∧
    bestOppGasPrice g ≤ 8 * 1000000000 ∧
    bestOppGasPrice g = min g (8 * 1000000000) := by
  refine ⟨?_, min_le_right _ _, rfl⟩
  cases fd <;> rfl

/-! ## Scan loop sleep (src/engine/index.ts) -/

def SCAN_INTERVAL_MS : Nat := 6000

/-- From index.ts runScanLoop: the sleep at the end of each iteration is
the constant SCAN_INTERVAL_MS; the elapsed scan time is measured and
logged but not subtracted. -/
def scanLoopSleepMs (_elapsedMs : Nat) : Nat :=
  SCAN_INTERVAL_MS

/-- One iteration of the loop: the next scan starts after the scan body
(elapsedMs) plus the sleep. -/
def nextScanStart (scanStart elapsedMs : Nat) : Nat :=
  scanStart + elapsedMs + scanLoopSleepMs elapsedMs

/-- C9 counterexample: a scan that ran 7000 ms is still followed by a full
6000 ms sleep, not the claimed max(0, 6000 - 7000) = 0. -/
theorem scanLoopSleep_ignores_elapsed :
    scanLoopSleepMs 7000 = 6000 ∧
    (scanLoopSleepMs 7000 : Int) ≠ max 0 ((6000 : Int) - 7000) := by
  exact ⟨rfl, by decide⟩

/-- C9 amended: the inter-scan sleep is the constant SCAN_INTERVAL_MS
regardless of the scan runtime, so consecutive scan starts are separated
by elapsed + SCAN_INTERVAL_MS. -/
theorem scanLoopSleep_constant (s e : Nat) :
    scanLoopSleepMs e = SCAN_INTERVAL_MS ∧
    nextScanStart s e = s + e + SCAN_INTERVAL_MS := by
  exact ⟨rfl, rfl⟩

/-! ## Opportunity finder (src/engine/evaluators/opportunityFinder.ts) -/

/-- The pool record consumed by the opportunity finder: canonical token
pair, venue name and the two raw reserves (fields read by the finder). -/
structure PoolInfo where
  tokenA : String
  tokenB : String
  dex : String
  reserve0 : Nat
  reserve1 : Nat
  deriving DecidableEq, Repr

/-- Opportunity record as pushed by checkDirectArb / checkTriangularArb.
The float profitPct display field is omitted; profit is the exact bigint.
Direct records carry buyDex/sellDex, triangular ones carry tokenC. -/
structure Opp where
  type : String
  tokenA : String
  tokenB : String
  tokenC : Option String
  buyDex : Option String
  sellDex : Option String
  profit : Int
  path : List String
  deriving DecidableEq, Repr

/-- Number of low bits a 64-bit float drops from m (0 when m fits in 53
bits); fuel-driven so that the kernel can evaluate it. -/
def ulpExpAux : Nat → Nat → Nat
  | 0, _ => 0
  | fuel + 1, m => if m < 2 ^ 53 then 0 else ulpExpAux fuel (m / 2) + 1

/-- JS Number(n) for a nonnegative bigint n: round to the nearest integer
representable with a 53-bit significand, ties to even (IEEE 754 double
rounding; exact for all values below the double overflow threshold). -/
def f64round (n : Nat) : Nat :=
  if n < 2 ^ 53 then n
  else
    let e := ulpExpAux n n
    let q := n / 2 ^ e
    let r := n % 2 ^ e
    if 2 * r < 2 ^ e then q * 2 ^ e
    else if 2 ^ e < 2 * r then (q + 1) * 2 ^ e
    else (if q % 2 = 0 then q else q + 1) * 2 ^ e

/-- JS Number() on a bigint of either sign. -/
def f64ofInt (i : Int) : Int :=
  if i < 0 then - (f64round i.natAbs) else f64round i.natAbs

/-- The ordering realised by the source comparator
(a, b) => Number(b.profit) - Number(a.profit) under a stable sort:
a may precede b iff the float image of its profit is at least that of b.
IEEE double subtraction of two doubles is sign-faithful, so the
comparator orders exactly by these float keys. -/
def oppGe (a b : Opp) : Prop :=
  f64ofInt b.profit ≤ f64ofInt a.profit

instance : DecidableRel oppGe := fun a b =>
  inferInstanceAs (Decidable (f64ofInt b.profit ≤ f64ofInt a.profit))

instance : IsTotal Opp oppGe :=
  ⟨fun a b => by
    unfold oppGe
    exact le_total (f64ofInt b.profit) (f64ofInt a.profit)⟩

instance : IsTrans Opp oppGe :=
  ⟨fun x y z hab hbc => by
    unfold oppGe at hab hbc ⊢
    exact le_trans hbc hab⟩

/-- From opportunityFinder.ts, checkDirectArb: all ordered pairs of
distinct pools on the (tokenA, tokenB) pair, buy A to B then sell B to A,
emitted when profit is strictly positive, in loop order. -/
def checkDirectArb (pools : List PoolInfo) (tokenA tokenB : String)
    (loanAmount : Nat) : List Opp :=
  let poolsAB := pools.filter fun p =>
    (p.tokenA == tokenA && p.tokenB == tokenB) ||
    (p.tokenA == tokenB && p.tokenB == tokenA)
  if poolsAB.length < 2 then []
  else
    poolsAB.enum.flatMap fun bi =>
      poolsAB.enum.filterMap fun sj =>
        if bi.1 = sj.1 then none
        else
          let buyPool := bi.2
          let sellPool := sj.2
          let out1 :=
            if buyPool.tokenA == tokenA then
              computeAmountOut loanAmount buyPool.reserve0 buyPool.reserve1
            else
              computeAmountOut loanAmount buyPool.reserve1 buyPool.reserve0
          if out1 = 0 then none
          else
            let out2 :=
              if sellPool.tokenA == tokenB then
                computeAmountOut out1 sellPool.reserve0 sellPool.reserve1
              else
                computeAmountOut out1 sellPool.reserve1 sellPool.reserve0
            let profit : Int := (out2 : Int) - (loanAmount : Int)
            if 0 < profit then
              some { type := "DIRECT", tokenA := tokenA, tokenB := tokenB,
                     tokenC := none, buyDex := some buyPool.dex,
                     sellDex := some sellPool.dex, profit := profit,
                     path := [buyPool.dex, sellPool.dex] }
            else none

/-- The local findPool lambda of checkTriangularArb: first pool holding
the unordered token pair. -/
def findPool (pools : List PoolInfo) (x y : String) : Option PoolInfo :=
  pools.find? fun p =>
    (p.tokenA == x && p.tokenB == y) || (p.tokenA == y && p.tokenB == x)

/-- From opportunityFinder.ts, checkTriangularArb: simulate
A to B to C to A through the first pool found for each pair; emit when the
final amount strictly exceeds the loan. No minimum-profit threshold is
consulted. -/
def checkTriangularArb (pools : List PoolInfo) (tokenA tokenB tokenC : String)
    (loanAmount : Nat) : List Opp :=
  match findPool pools tokenA tokenB, findPool pools tokenB tokenC,
      findPool pools tokenC tokenA with
  | some pAB, some pBC, some pCA =>
    let out1 :=
      if pAB.tokenA == tokenA then
        computeAmountOut loanAmount pAB.reserve0 pAB.reserve1
      else computeAmountOut loanAmount pAB.reserve1 pAB.reserve0
    if out1 = 0 then []
    else
      let out2 :=
        if pBC.tokenA == tokenB then
          computeAmountOut out1 pBC.reserve0 pBC.reserve1
        else computeAmountOut out1 pBC.reserve1 pBC.reserve0
      if out2 = 0 then []
      else
        let out3 :=
          if pCA.tokenA == tokenC then
            computeAmountOut out2 pCA.reserve0 pCA.reserve1
          else computeAmountOut out2 pCA.reserve1 pCA.reserve0
        let profit : Int := (out3 : Int) - (loanAmount : Int)
        if 0 < profit then
          [{ type := "TRIANGULAR", tokenA := tokenA, tokenB := tokenB,
             tokenC := some tokenC, buyDex := none, sellDex := none,
             profit := profit, path := [pAB.dex, pBC.dex, pCA.dex] }]
        else []
  | _, _, _ => []

/-- From opportunityFinder.ts, findOpportunities. allTokens is the
address list returned by getAllTokens() (a runtime value, passed here as
a parameter); the unused paths parameter of the source is dropped. The
final in-place sort with comparator Number(b.profit) - Number(a.profit)
is a stable sort (ECMA-262 requires stability), modelled by the stable
insertion sort over the float-key order oppGe. -/
def findOpportunities (allTokens : List String) (pools : List PoolInfo)
    (loanAmount : Nat) : List Opp :=
  let direct := allTokens.flatMap fun t1 =>
    allTokens.flatMap fun t2 =>
      if t1 == t2 then [] else checkDirectArb pools t1 t2 loanAmount
  let tri := allTokens.flatMap fun t1 =>
    allTokens.flatMap fun t2 =>
      allTokens.flatMap fun t3 =>
        if t1 == t2 || t2 == t3 || t1 == t3 then []
        else checkTriangularArb pools t1 t2 t3 loanAmount
  List.insertionSort oppGe (direct ++ tri)

/-- Pools for the C2 counterexample: two venue pairs on tokens A, B and
two on tokens C, D, tuned so that the two large profits are 2^53 and
2^53 + 1, which round to the same 64-bit float. -/
def cexPools : List PoolInfo :=
  [ ⟨"A", "B", "d1", 9975, 20000⟩,
    ⟨"A", "B", "d2", 2 * (2 ^ 53 + 10000), 9975⟩,
    ⟨"C", "D", "d3", 9975, 20000⟩,
    ⟨"C", "D", "d4", 2 * (2 ^ 53 + 10001), 9975⟩ ]

def cexTokens : List String := ["A", "B", "C", "D"]

/-- C2 counterexample: with these pools and a loan of 10000 the sorted
output starts with profits 2^53 and then 2^53 + 1 in that order, because
both convert to the same double and the stable sort keeps insertion
order; the list is therefore not sorted by exact integer profit
descending, and no profit_pct or path-length tie-breaking exists. -/
theorem findOpportunities_not_sorted_by_exact_profit :
    ((findOpportunities cexTokens cexPools 10000).map Opp.profit).take 2 =
      [9007199254740992, 9007199254740993] ∧
    (9007199254740992 : Int) < 9007199254740993 := by
  exact ⟨by decide, by decide⟩

/-- C2 amended: the list returned by findOpportunities is sorted
descending by the 64-bit float image of the exact integer profit (the
comparator converts the bigint profit with Number()), ties keeping
insertion order; there is no profit_pct or path-length tie-breaking. -/
theorem findOpportunities_sorted_by_float_key (allTokens : List String)
    (pools : List PoolInfo) (loanAmount : Nat) :
    (findOpportunities allTokens pools loanAmount).Pairwise oppGe :=
  List.sorted_insertionSort oppGe _

/-- Engine MIN_PROFIT configured in src/engine/index.ts (0.002e18). -/
def MIN_PROFIT : Nat := 2000000000000000

/-- Pools for the C6 counterexample: a 3-cycle returning exactly
loan + 1. -/
def cex6Pools : List PoolInfo :=
  [ ⟨"A", "B", "d1", 9975, 20000⟩,
    ⟨"B", "C", "d2", 9975, 20000⟩,
    ⟨"C", "A", "d3", 9975, 20002⟩ ]

/-- C6 counterexample: the cycle A-B-C-A simulates to 10001 from a loan of
10000 and is emitted with profit 1, although 1 is far below the configured
min_profit; checkTriangularArb takes no min_profit parameter at all, so a
cycle whose final amount falls short of loan + min_profit is still
emitted whenever it strictly exceeds the loan. -/
theorem checkTriangularArb_emits_below_min_profit :
    (checkTriangularArb cex6Pools "A" "B" "C" 10000).map Opp.profit = [1] ∧
    (1 : Int) < (MIN_PROFIT : Int) := by
  exact ⟨by decide, by decide⟩

/-- One hop of the triangular simulation: orient the pool so that tin is
the input token, then apply the swap formula (the conditional that
appears inline at each hop of checkTriangularArb). -/
def triStep (p : PoolInfo) (tin : String) (amt : Nat) : Nat :=
  if p.tokenA == tin then computeAmountOut amt p.reserve0 p.reserve1
  else computeAmountOut amt p.reserve1 p.reserve0

/-- C6 amended: for a 3-token cycle whose three pools are found, an
opportunity is emitted exactly when the two intermediate simulated
amounts are nonzero and the final simulated amount strictly exceeds the
loan; the min_profit threshold plays no part in the decision. -/
theorem checkTriangularArb_emission_iff (pools : List PoolInfo)
    (a b c : String) (loan : Nat) (pAB pBC pCA : PoolInfo)
    (hAB : findPool pools a b = some pAB)
    (hBC : findPool pools b c = some pBC)
    (hCA : findPool pools c a = some pCA) :
    (checkTriangularArb pools a b c loan ≠ [] ↔
      triStep pAB a loan ≠ 0 ∧
      triStep pBC b (triStep pAB a loan) ≠ 0 ∧
      loan < triStep pCA c (triStep pBC b (triStep pAB a loan))) := by
  unfold checkTriangularArb triStep
  rw [hAB, hBC, hCA]
  by_cases e1 : (pAB.tokenA == a) = true <;>
    by_cases e2 : (pBC.tokenA == b) = true <;>
    by_cases e3 : (pCA.tokenA == c) = true <;>
    simp only [e1, e2, e3, if_true, if_false, Bool.not_eq_true] <;>
    split_ifs <;>
    simp_all

/-- C6 witness: the characterization applied to the concrete cycle. -/
theorem checkTriangularArb_emission_iff_witness :
    checkTriangularArb cex6Pools "A" "B" "C" 10000 ≠ [] := by
  have h := checkTriangularArb_emission_iff cex6Pools "A" "B" "C" 10000
    ⟨"A", "B", "d1", 9975, 20000⟩ ⟨"B", "C", "d2", 9975, 20000⟩
    ⟨"C", "A", "d3", 9975, 20002⟩ (by decide) (by decide) (by decide)
  exact h.mpr (by decide)

/-! ## Token graph path search (src/engine/evaluators/pathOptimizer.ts) -/

/-- Edge in the token graph, pathOptimizer.ts. -/
structure Edge where
  tokenIn : String
  tokenOut : String
  dexName : String
  router : String
  pair : String
  reserveIn : Nat
  reserveOut : Nat
  deriving DecidableEq, Repr

/-- The TokenGraph Map token -> outgoing edges, in insertion order. -/
def TokenGraph : Type := List (String × List Edge)

/-- A multihop path, pathOptimizer.ts. -/
structure Path where
  tokens : List String
  edges : List Edge
  deriving DecidableEq, Repr

/-- The inner dfs closure of findPaths. The JS guard (depth > maxHops)
is modelled by fuel = maxHops + 1 - depth, consumed one unit per level.
Note the revisit check is guarded by !returnToStart: in cycle-search mode
it is disabled entirely. -/
def dfs (graph : TokenGraph) (startToken : String) (returnToStart : Bool) :
    Nat → String → List String → List Edge → List Path
  | 0, _, _, _ => []
  | fuel + 1, currentToken, currentTokens, currentEdges =>
    ((List.lookup currentToken graph).getD []).flatMap fun edge =>
      let nextToken := edge.tokenOut
      if currentTokens.contains nextToken && !returnToStart then []
      else
        let newTokens := currentTokens ++ [nextToken]
        let newEdges := currentEdges ++ [edge]
        if returnToStart && (nextToken == startToken) &&
            decide (2 ≤ newEdges.length) then
          [⟨newTokens, newEdges⟩]
        else
          (if !returnToStart then [(⟨newTokens, newEdges⟩ : Path)] else []) ++
          dfs graph startToken returnToStart fuel nextToken newTokens newEdges

/-- From pathOptimizer.ts, findPaths: depth-limited DFS from startToken.
The initial call is at depth 0 with path [startToken]. -/
def findPaths (graph : TokenGraph) (startToken : String) (maxHops : Nat)
    (returnToStart : Bool) : List Path :=
  dfs graph startToken returnToStart (maxHops + 1) startToken [startToken] []

/-- From pathOptimizer.ts, findTriangularPaths: cycles from every graph
key in insertion order. -/
def findTriangularPaths (graph : TokenGraph) (maxHops : Nat) : List Path :=
  (graph.map Prod.fst).flatMap fun startToken =>
    findPaths graph startToken maxHops true

def eAB : Edge := ⟨"A", "B", "d", "r", "p1", 1, 1⟩
def eBA : Edge := ⟨"B", "A", "d", "r", "p1", 1, 1⟩
def eBC : Edge := ⟨"B", "C", "d", "r", "p2", 1, 1⟩
def eCB : Edge := ⟨"C", "B", "d", "r", "p2", 1, 1⟩

/-- Two-pool token graph A-B, B-C as built by buildTokenGraph. -/
def cexGraph : TokenGraph :=
  [("A", [eAB]), ("B", [eBA, eBC]), ("C", [eCB])]

/-- C7 counterexample: in cycle-search mode the revisit check is
disabled, so findPaths emits the cycle A-B-C-B-A in which the non-start
token B occurs twice before the final vertex. -/
theorem findPaths_cycle_repeats_token :
    ["A", "B", "C", "B", "A"] ∈
      (findPaths cexGraph "A" 3 true).map Path.tokens ∧
    (["A", "B", "C", "B", "A"].count "B" = 2 ∧ "B" ≠ "A") := by
  exact ⟨by decide, by decide, by decide⟩

/-- In simple-path mode every emitted path extends a duplicate-free token
list without introducing duplicates. -/
theorem dfs_nodup (graph : TokenGraph) (startToken : String) :
    ∀ (fuel : Nat) (ct : String) (cts : List String) (ce : List Edge),
      cts.Nodup →
      ∀ p ∈ dfs graph startToken false fuel ct cts ce, p.tokens.Nodup := by
  intro fuel
  induction fuel with
  | zero => intro ct cts ce _ p hp; simp [dfs] at hp
  | succ fuel ih =>
    intro ct cts ce hnd p hp
    simp only [dfs, List.mem_flatMap] at hp
    obtain ⟨edge, _, hp⟩ := hp
    by_cases hc : cts.contains edge.tokenOut
    · rw [if_pos (by rw [hc]; rfl)] at hp
      simp at hp
    · have hnotmem : edge.tokenOut ∉ cts := by simpa using hc
      have hnd2 : (cts ++ [edge.tokenOut]).Nodup := by
        rw [List.nodup_append]
        refine ⟨hnd, List.nodup_singleton _, ?_⟩
        intro a ha hmem
        simp only [List.mem_singleton] at hmem
        exact hnotmem (hmem ▸ ha)
      rw [if_neg (by simp [hnotmem]), if_neg (by simp), if_pos (by simp)] at hp
      simp only [List.mem_append, List.mem_singleton] at hp
      rcases hp with hp | hp
      · subst hp; exact hnd2
      · exact ih _ _ _ hnd2 p hp

/-- In cycle-search mode every emitted path starts and ends at the start
token (the token list grows from [startToken] by appends, and a path is
only pushed when the appended vertex equals the start token). -/
theorem dfs_cycle_endpoints (graph : TokenGraph) (startToken : String) :
    ∀ (fuel : Nat) (ct : String) (rest : List String) (ce : List Edge),
      ∀ p ∈ dfs graph startToken true fuel ct (startToken :: rest) ce,
        p.tokens.head? = some startToken ∧
        p.tokens.getLast? = some startToken := by
  intro fuel
  induction fuel with
  | zero => intro ct rest ce p hp; simp [dfs] at hp
  | succ fuel ih =>
    intro ct rest ce p hp
    simp only [dfs, List.mem_flatMap] at hp
    obtain ⟨edge, _, hp⟩ := hp
    simp only [Bool.not_true, Bool.and_false, Bool.false_eq_true, if_false,
      Bool.true_and, List.nil_append] at hp
    by_cases hb : (edge.tokenOut == startToken) && decide (2 ≤ (ce ++ [edge]).length)
    · simp only [hb, if_true, List.mem_singleton] at hp
      subst hp
      have heq : edge.tokenOut = startToken := by
        have := (Bool.and_eq_true _ _).mp hb
        exact beq_iff_eq.mp this.1
      constructor
      · simp
      · rw [show (startToken :: rest) ++ [edge.tokenOut] =
            (startToken :: rest) ++ [edge.tokenOut] from rfl,
          List.getLast?_concat, heq]
    · simp only [hb, Bool.false_eq_true, if_false] at hp
      have hp2 : p ∈ dfs graph startToken true fuel edge.tokenOut
          (startToken :: (rest ++ [edge.tokenOut])) (ce ++ [edge]) := by
        simpa [List.cons_append] using hp
      exact ih _ _ _ p hp2

/-- C7 amended: with returnToStart = false every path produced by
findPaths has duplicate-free tokens (the start token included); with
returnToStart = true the produced paths start and end at the start token,
but intermediate tokens may repeat, because the revisit check is disabled
in cycle-search mode. -/
theorem findPaths_nodup_and_cycle_endpoints (graph : TokenGraph)
    (startToken : String) (maxHops : Nat) :
    (∀ p ∈ findPaths graph startToken maxHops false, p.tokens.Nodup) ∧
    (∀ p ∈ findPaths graph startToken maxHops true,
      p.tokens.head? = some startToken ∧
      p.tokens.getLast? = some startToken) := by
  constructor
  · intro p hp
    exact dfs_nodup graph startToken (maxHops + 1) startToken [startToken] []
      (List.nodup_singleton _) p hp
  · intro p hp
    exact dfs_cycle_endpoints graph startToken (maxHops + 1) startToken [] []
      p hp

/-- C7 witness: the amended invariants applied to a concrete path of the
concrete graph. -/
theorem findPaths_nodup_and_cycle_endpoints_witness :
    (⟨["A", "B"], [eAB]⟩ : Path) ∈ findPaths cexGraph "A" 3 false ∧
    (["A", "B"] : List String).Nodup :=
  ⟨by decide,
    (findPaths_nodup_and_cycle_endpoints cexGraph "A" 3).1
      ⟨["A", "B"], [eAB]⟩ (by decide)⟩

/-! ## Batch RPC (src/engine/utils/batchRpc.ts) -/

/-- An eth_call request, batchRpc.ts. The source field named to is
rendered toAddr here because to is a reserved word in Lean. -/
structure RpcCall where
  toAddr : String
  data : String
  deriving DecidableEq, Repr

/-- The chunking loop: for (i = 0; i < calls.length; i += batchSize)
slice(i, i + batchSize), annotating each call with its global index
(the index field set to i + idx in the source). Fuel-driven; with
batchSize at least 1 a fuel of calls.length covers the whole loop. -/
def chunkFrom {α : Type} (batchSize : Nat) :
    Nat → List α → Nat → List (List (Nat × α))
  | 0, _, _ => []
  | _, [], _ => []
  | fuel + 1, l, off =>
    (l.take batchSize).enumFrom off ::
      chunkFrom batchSize fuel (l.drop batchSize) (off + batchSize)

/-- From batchRpc.ts: results starts as an all-null array of
calls.length, then every batch response writes its items at
results[targetIndex]. The per-call network outcome is the oracle resp
(none models a response item without a result; a batch aborted after
retries likewise leaves its slots null, i.e. resp none on them). -/
def batchRpc (resp : RpcCall → Option String) (calls : List RpcCall)
    (batchSize : Nat) : List (Option String) :=
  let batches := chunkFrom batchSize calls.length calls 0
  batches.foldl
    (fun results batch =>
      batch.foldl (fun res p => res.set p.1 (resp p.2)) results)
    (List.replicate calls.length none)

/-- Folding batch by batch is folding over the concatenation. -/
theorem foldl_flatten_eq {α β : Type} (f : β → α → β) :
    ∀ (L : List (List α)) (b : β),
      L.foldl (fun x l => l.foldl f x) b = L.flatten.foldl f b := by
  intro L
  induction L with
  | nil => intro b; rfl
  | cons l L ih =>
    intro b
    simp only [List.foldl_cons, List.flatten_cons, List.foldl_append]
    exact ih _

/-- The chunks concatenate back to the index-annotated call list. -/
theorem chunkFrom_flatten {α : Type} (batchSize : Nat)
    (hbs : 0 < batchSize) :
    ∀ (fuel : Nat) (l : List α) (off : Nat), l.length ≤ fuel →
      (chunkFrom batchSize fuel l off).flatten = l.enumFrom off := by
  intro fuel
  induction fuel with
  | zero =>
    intro l off hl
    have : l = [] := List.length_eq_zero.mp (Nat.le_zero.mp hl)
    subst this
    rfl
  | succ fuel ih =>
    intro l off hl
    cases l with
    | nil => rfl
    | cons x xs =>
      simp only [chunkFrom, List.flatten_cons]
      rw [ih ((x :: xs).drop batchSize) (off + batchSize)
        (by simp only [List.length_drop]; omega)]
      conv_rhs => rw [← List.take_append_drop batchSize (x :: xs)]
      rw [List.enumFrom_append]
      cases hdrop : (x :: xs).drop batchSize with
      | nil => simp
      | cons y ys =>
        have hlen : batchSize ≤ (x :: xs).length := by
          by_contra hcon
          have hnil : (x :: xs).drop batchSize = [] :=
            List.drop_eq_nil_iff.mpr (by omega)
          rw [hnil] at hdrop
          cases hdrop
        have htake : ((x :: xs).take batchSize).length = batchSize := by
          rw [List.length_take]
          omega
        rw [htake]

/-- Writing the annotated entries into an accumulator fills exactly the
annotated positions with the oracle results. -/
theorem enumFrom_setFold (resp : RpcCall → Option String) :
    ∀ (l : List RpcCall) (off : Nat) (acc : List (Option String)),
      off + l.length ≤ acc.length →
      ∀ i,
        ((l.enumFrom off).foldl (fun res p => res.set p.1 (resp p.2))
            acc)[i]? =
          if off ≤ i ∧ i < off + l.length then (l[i - off]?).map resp
          else acc[i]? := by
  intro l
  induction l with
  | nil =>
    intro off acc hlen i
    simp only [List.enumFrom, List.foldl_nil, List.length_nil]
    split
    · omega
    · rfl
  | cons c cs ih =>
    intro off acc hlen i
    simp only [List.enumFrom, List.foldl_cons]
    rw [ih (off + 1) (acc.set off (resp c))
      (by rw [List.length_set]; simp at hlen ⊢; omega)]
    by_cases h1 : off + 1 ≤ i ∧ i < off + 1 + cs.length
    · rw [if_pos h1, if_pos (by simp; omega)]
      have h3 : i - off = (i - (off + 1)) + 1 := by omega
      rw [h3, List.getElem?_cons_succ]
    · rw [if_neg h1]
      by_cases h2 : i = off
      · subst h2
        rw [if_pos (by simp)]
        rw [List.getElem?_set_self (by simp at hlen ⊢; omega)]
        simp
      · rw [if_neg (by simp; omega), List.getElem?_set_ne (fun h => h2 h.symm)]

/-- Length is preserved by every write. -/
theorem setFold_length (resp : RpcCall → Option String) :
    ∀ (pairs : List (Nat × RpcCall)) (acc : List (Option String)),
      (pairs.foldl (fun res p => res.set p.1 (resp p.2)) acc).length =
        acc.length := by
  intro pairs
  induction pairs with
  | nil => intro acc; rfl
  | cons p ps ih =>
    intro acc
    simp only [List.foldl_cons]
    rw [ih, List.length_set]

/-- C8: for every call list and positive batch size, batchRpc returns
exactly calls.length entries, and the entry at index i is the outcome of
calls[i] (none marking that calls failure); a failing call only affects
its own slot. -/
theorem batchRpc_total_and_indexed (resp : RpcCall → Option String)
    (calls : List RpcCall) (batchSize : Nat) (hbs : 0 < batchSize) :
    (batchRpc resp calls batchSize).length = calls.length ∧
    ∀ i, i < calls.length →
      (batchRpc resp calls batchSize)[i]? = (calls[i]?).map resp := by
  have hrw : batchRpc resp calls batchSize =
      (calls.enumFrom 0).foldl (fun res p => res.set p.1 (resp p.2))
        (List.replicate calls.length none) := by
    unfold batchRpc
    rw [foldl_flatten_eq, chunkFrom_flatten batchSize hbs calls.length calls 0
      (Nat.le_refl _)]
  constructor
  · rw [hrw, setFold_length, List.length_replicate]
  · intro i hi
    rw [hrw, enumFrom_setFold resp calls 0
      (List.replicate calls.length (none : Option String))
      (by rw [List.length_replicate]; omega) i]
    rw [if_pos (by omega)]
    simp

def wCalls : List RpcCall := [⟨"a", "x"⟩, ⟨"b", "y"⟩, ⟨"c", "z"⟩]

def wResp : RpcCall → Option String :=
  fun c => if c.toAddr == "b" then none else some c.data

/-- C8 witness: the guarantee applied at a concrete call list, batch size
2 and an oracle that fails the middle call. -/
theorem batchRpc_total_and_indexed_witness :
    0 < 2 ∧ 1 < wCalls.length ∧
    (batchRpc wResp wCalls 2)[1]? = (wCalls[1]?).map wResp :=
  ⟨by decide, by decide,
    (batchRpc_total_and_indexed wResp wCalls 2 (by decide)).2 1 (by decide)⟩

end Multibot
